import Mathlib

/-!
Verification of the VimBrowse overlay renderer, synthetic-input injector and
visibility state machine, shallowly embedded from the Rust sources
(`src/main.rs`, `src/hotkey.rs`).

Machine floats (`f32`) are modeled over `ℚ`; every theorem below evaluates the
model only at inputs for which every intermediate `f32` computation of the
source is exact, so the rational model agrees with the machine computation.
Machine integers (`u32`) are modeled over `ℕ`, with Rust's panicking
subtraction modeled as a checked subtraction returning `Option ℕ` and
`saturating_sub` as truncated `Nat` subtraction.
-/

namespace VimBrowse

/-- Checked `u32` subtraction: Rust `a - b` panics (in debug builds) on
underflow; `none` models that abort. -/
def cSub (a b : Nat) : Option Nat := if b ≤ a then some (a - b) else none

/-- Truncation toward zero of a rational, used to model Rust's float `%`. -/
def ratTrunc (q : ℚ) : ℤ := if q < 0 then -⌊-q⌋ else ⌊q⌋

/-- Rust `%` on floats (remainder with the sign of the dividend), on `ℚ`. -/
def rustRem (a b : ℚ) : ℚ := a - b * (ratTrunc (a / b) : ℚ)

/-- Rust f32 `.round()`: round half away from zero, yielding an integer. -/
def ratRound (q : ℚ) : ℤ := if q < 0 then -⌊-q + 1/2⌋ else ⌊q + 1/2⌋

/-- Rust `as u8` cast of a rounded float: saturating into `[0, 255]`. -/
def clampU8 (z : ℤ) : ℕ := (min 255 (max 0 z)).toNat

/-- `hsv_to_rgb` from `src/main.rs` (lines 224-247): six 60°-wide sectors,
chroma `c = v*s`, intermediate `x = c*(1 - |((h/60) mod 2) - 1|)`,
match value `m = v - c`, each channel `((channel + m) * 255).round() as u8`. -/
def hsv_to_rgb (h s v : ℚ) : ℕ × ℕ × ℕ :=
  let h := rustRem h 360
  let c := v * s
  let x := c * (1 - |rustRem (h / 60) 2 - 1|)
  let m := v - c
  let rgb : ℚ × ℚ × ℚ :=
    if h < 60 then (c, x, 0)
    else if h < 120 then (x, c, 0)
    else if h < 180 then (0, c, x)
    else if h < 240 then (0, x, c)
    else if h < 300 then (x, 0, c)
    else (c, 0, x)
  (clampU8 (ratRound ((rgb.1 + m) * 255)),
   clampU8 (ratRound ((rgb.2.1 + m) * 255)),
   clampU8 (ratRound ((rgb.2.2 + m) * 255)))

/-- `SPEED` constant from `src/main.rs` (line 31). -/
def SPEED : ℚ := 1/10

/-- The per-frame perimeter (line 146):
`2.0 * (width as f32 + height as f32 - 2.0 * border_width as f32)`,
as the signed integer it is exactly equal to for machine-exact sizes. -/
def perimeterZ (w h b : ℕ) : ℤ := 2 * ((w : ℤ) + (h : ℤ) - 2 * (b : ℤ))

/-- Per-pixel color (lines 158-161, identical in all four band loops):
`pos = p / perimeter`, `phase = (pos + time_phase) % 1.0`,
`rgb = hsv_to_rgb(phase * 360, 1, 1)`, packed `r << 16 | g << 8 | b`. -/
def colorAt (w h b : ℕ) (t : ℚ) (p : ℕ) : ℕ :=
  let pos : ℚ := (p : ℚ) / ((perimeterZ w h b : ℤ) : ℚ)
  let phase := rustRem (pos + t) 1
  let rgb := hsv_to_rgb (phase * 360) 1 1
  (rgb.1 <<< 16) ||| (rgb.2.1 <<< 8) ||| rgb.2.2

/-- Top-band contribution (line 157): `p = x`. -/
def topPos (x : ℕ) : Option ℕ := some x

/-- Right-band contribution (line 171): `width + (y - border_width)`, where
`y - border_width` is a panicking `u32` subtraction. -/
def rightPos (w b y : ℕ) : Option ℕ := (cSub y b).map (fun d => w + d)

/-- Bottom-band contribution (lines 185-187): `reversed_x = width - 1 - x`,
`p = width + (height - 2*border_width) + reversed_x`. -/
def bottomPos (w h b x : ℕ) : Option ℕ := do
  let w1 ← cSub w 1
  let rx ← cSub w1 x
  let hb ← cSub h (2 * b)
  some (w + hb + rx)

/-- Left-band contribution (lines 200-201):
`reversed_y = (height - 2*border_width - 1) - (y - border_width)`,
`p = (2*width + height - 2*border_width) + reversed_y`. -/
def leftPos (w h b y : ℕ) : Option ℕ := do
  let hb ← cSub h (2 * b)
  let hb1 ← cSub hb 1
  let yb ← cSub y b
  let ry ← cSub hb1 yb
  let base ← cSub (2 * w + h) (2 * b)
  some (base + ry)

/-- `buffer[index] = color`: panics when the index is out of bounds. -/
def writePx (buf : List ℕ) (i c : ℕ) : Option (List ℕ) :=
  if i < buf.length then some (buf.set i c) else none

/-- Rust `a..b` iteration order. -/
def rng (a b : ℕ) : List ℕ := List.range' a (b - a)

/-- Top border loop (lines 155-165): `for y in 0..border_width`,
`for x in 0..width`, write at `y * width + x`. -/
def drawTopBand (w h b : ℕ) (t : ℚ) (buf : List ℕ) : Option (List ℕ) :=
  (rng 0 b).foldlM (fun buf y =>
    (rng 0 w).foldlM (fun buf x => do
      let p ← topPos x
      writePx buf (y * w + x) (colorAt w h b t p)) buf) buf

/-- Right border loop (lines 168-179): `for x in width.saturating_sub(bw)..width`,
`for y in bw..height.saturating_sub(bw)`, write at `y * width + x`. -/
def drawRightBand (w h b : ℕ) (t : ℚ) (buf : List ℕ) : Option (List ℕ) :=
  (rng (w - b) w).foldlM (fun buf x =>
    (rng b (h - b)).foldlM (fun buf y => do
      let p ← rightPos w b y
      writePx buf (y * w + x) (colorAt w h b t p)) buf) buf

/-- Bottom border loop (lines 182-195): `for y in height.saturating_sub(bw)..height`,
`for x in 0..width`, write at `y * width + x`. -/
def drawBottomBand (w h b : ℕ) (t : ℚ) (buf : List ℕ) : Option (List ℕ) :=
  (rng (h - b) h).foldlM (fun buf y =>
    (rng 0 w).foldlM (fun buf x => do
      let p ← bottomPos w h b x
      writePx buf (y * w + x) (colorAt w h b t p)) buf) buf

/-- Left border loop (lines 198-209): `for x in 0..border_width`,
`for y in bw..height.saturating_sub(bw)`, write at `y * width + x`. -/
def drawLeftBand (w h b : ℕ) (t : ℚ) (buf : List ℕ) : Option (List ℕ) :=
  (rng 0 b).foldlM (fun buf x =>
    (rng b (h - b)).foldlM (fun buf y => do
      let p ← leftPos w h b y
      writePx buf (y * w + x) (colorAt w h b t p)) buf) buf

/-- Outcome of one `RedrawRequested` handler run: the frame is skipped
(an early `return`), the draw panics (`aborted`), or the buffer is drawn
and presented. -/
inductive FrameResult where
  | skipped : FrameResult
  | aborted : FrameResult
  | drawn : List ℕ → FrameResult
  deriving DecidableEq

/-- The `RedrawRequested` arm of `App::window_event` (lines 113-214): skip the
frame when the buffer length disagrees with `width * height` (line 141) or
when the computed perimeter equals `0.0` (line 147); otherwise draw the four
border bands in source order, propagating any panic. -/
def drawFrame (w h b : ℕ) (t : ℚ) (buf : List ℕ) : FrameResult :=
  if buf.length ≠ w * h then .skipped
  else if perimeterZ w h b = 0 then .skipped
  else
    match (drawTopBand w h b t buf).bind (fun bf => (drawRightBand w h b t bf).bind
        (fun bf => (drawBottomBand w h b t bf).bind (drawLeftBand w h b t))) with
    | none => .aborted
    | some buf2 => .drawn buf2

/-- Pixel contents after a frame: a skipped or panicked frame leaves the
buffer as it was; a drawn frame presents the new buffer. -/
def resultBuffer (buf : List ℕ) : FrameResult → List ℕ
  | .drawn buf2 => buf2
  | _ => buf

/-- `send_keys` from `src/hotkey.rs` (lines 6-32): key-down entries
(`KEYBD_EVENT_FLAGS(0)`, modeled `false`) for the given virtual keys in
order, chained with key-up entries (`KEYEVENTF_KEYUP`, modeled `true`) for
the same keys in reverse order; the whole batch is submitted in one
`SendInput` call. -/
def send_keys (inputs : List ℕ) : List (ℕ × Bool) :=
  inputs.map (fun i => (i, false)) ++ inputs.reverse.map (fun i => (i, true))

/-- The mutable state visible to the visibility logic: the `show_state`
atomic flag (`main`, line 252) and the number of live overlay windows
(`App.window : Option<Rc<Window>>`, so 0 or 1). -/
structure VisState where
  flag : Bool
  windows : ℕ
  deriving DecidableEq

/-- The toggle hotkey closure (`src/main.rs` lines 319-323): store the
negated flag and send a wake; the wake is serviced later by `user_event`. -/
def toggleHotkey (s : VisState) : VisState := { s with flag := !s.flag }

/-- `App::create_window` (lines 40-94) as it acts on the visibility state:
read the flag; when shown, create a window only if none exists yet
(`self.window.is_none()`); when hidden, drop the window. -/
def create_window (s : VisState) : VisState :=
  if s.flag then (if s.windows = 0 then { s with windows := 1 } else s)
  else { s with windows := 0 }

/-- `App::user_event` (lines 219-221): every wake re-evaluates visibility
through `create_window`. -/
def user_event (s : VisState) : VisState := create_window s

/-- `App::resumed` (lines 98-100): calls `create_window`. -/
def resumedHandler (s : VisState) : VisState := create_window s

/-- Process startup (`main`, lines 252 and 328-333):
`show_state = AtomicBool::new(true)` and `window: None`. -/
def initialState : VisState := { flag := true, windows := 0 }

/-- Events of interest to `App::window_event`. -/
inductive WinEvent where
  | closeRequested : WinEvent
  | redrawRequested : WinEvent
  | other : WinEvent

/-- `App::window_event` (lines 102-217) restricted to its effect on the
visibility state and the event loop: with no matching window the event is
ignored (lines 103-107); `CloseRequested` calls `event_loop.exit()`
(lines 110-112) leaving the window in place; other events repaint but
neither exit nor change the visibility state. Result: (state, exited). -/
def window_event (s : VisState) (matchesWindow : Bool) (e : WinEvent) :
    VisState × Bool :=
  if matchesWindow then
    match e with
    | .closeRequested => (s, true)
    | _ => (s, false)
  else (s, false)

/-- The spec's perimeter in `ℕ`: `2*(w + h - 2b)`. -/
def perimeterN (w h b : ℕ) : ℕ := 2 * (w + h - 2 * b)

/-- The contribution the renderer assigns to the k-th pixel of the canonical
clockwise walk of the border starting at the top-left corner: top row
left→right (`(k, 0)`), right column top→bottom at `x = w-1`, bottom row
right→left at `y = h-1`, left column bottom→top at `x = 0`, each leg
dispatching to the band computation that draws that pixel. -/
def walkContribution (w h b k : ℕ) : Option ℕ :=
  if k < w then topPos k
  else if k < w + (h - 2 * b) then rightPos w b (b + (k - w))
  else if k < 2 * w + (h - 2 * b) then bottomPos w h b (w - 1 - (k - (w + (h - 2 * b))))
  else leftPos w h b (h - b - 1 - (k - (2 * w + (h - 2 * b))))

/-- Modelled from the spec (for comparison with the code): the left-band
PerimeterPosition formula the spec states,
`2w + (h - 2b) + (h - 1 - b - (y - b))`. -/
def specLeftContribution (w h b y : ℕ) : ℕ :=
  2 * w + (h - 2 * b) + (h - 1 - b - (y - b))

lemma ratTrunc_eq_of_bounds (q : ℚ) (z : ℤ) (hq : 0 ≤ q) (hle : (z : ℚ) ≤ q)
    (hlt : q < z + 1) : ratTrunc q = z := by
  unfold ratTrunc
  rw [if_neg (not_lt.2 hq)]
  exact Int.floor_eq_iff.2 ⟨hle, hlt⟩

lemma rustRem_eq_of_decomp (a b r : ℚ) (k : ℤ) (hk : 0 ≤ k) (hb : 0 < b)
    (ha : a = b * k + r) (hr0 : 0 ≤ r) (hrb : r < b) : rustRem a b = r := by
  have hk' : (0 : ℚ) ≤ (k : ℚ) := by exact_mod_cast hk
  have hrb' : 0 ≤ r / b := div_nonneg hr0 hb.le
  have hdiv : a / b = k + r / b := by
    field_simp [ha]
    ring
  have ht : ratTrunc (a / b) = k := by
    apply ratTrunc_eq_of_bounds _ _ (by rw [hdiv]; linarith)
    · rw [hdiv]; linarith
    · rw [hdiv]
      have : r / b < 1 := (div_lt_one hb).2 hrb
      linarith
  unfold rustRem
  rw [ht, ha]
  ring

lemma ratRound_eq_of_bounds (q : ℚ) (z : ℤ) (hq : 0 ≤ q) (hle : (z : ℚ) ≤ q + 1/2)
    (hlt : q + 1/2 < z + 1) : ratRound q = z := by
  unfold ratRound
  rw [if_neg (not_lt.2 hq)]
  exact Int.floor_eq_iff.2 ⟨hle, hlt⟩

lemma clampU8_255 : clampU8 (ratRound 255) = 255 := by
  rw [ratRound_eq_of_bounds 255 255 (by norm_num) (by norm_num) (by norm_num)]
  simp [clampU8]

lemma clampU8_0 : clampU8 (ratRound 0) = 0 := by
  rw [ratRound_eq_of_bounds 0 0 (by norm_num) (by norm_num) (by norm_num)]
  simp [clampU8]

/-- C5: the HSV-to-RGB conversion with `s = 1`, `v = 1` maps hue `0°` to
`(255,0,0)`, hue `120°` to `(0,255,0)`, hue `240°` to `(0,0,255)` and hue
`60°` to `(255,255,0)`; and for every hue, `s = 0` with `v = 1` yields
`(255,255,255)`. -/
theorem hsv_to_rgb_reference_values :
    hsv_to_rgb 0 1 1 = (255, 0, 0) ∧
    hsv_to_rgb 120 1 1 = (0, 255, 0) ∧
    hsv_to_rgb 240 1 1 = (0, 0, 255) ∧
    hsv_to_rgb 60 1 1 = (255, 255, 0) ∧
    ∀ h : ℚ, hsv_to_rgb h 0 1 = (255, 255, 255) := by
  have r0 : rustRem 0 360 = 0 :=
    rustRem_eq_of_decomp 0 360 0 0 le_rfl (by norm_num) (by norm_num) le_rfl (by norm_num)
  have r120 : rustRem 120 360 = 120 :=
    rustRem_eq_of_decomp 120 360 120 0 le_rfl (by norm_num) (by norm_num) (by norm_num)
      (by norm_num)
  have r240 : rustRem 240 360 = 240 :=
    rustRem_eq_of_decomp 240 360 240 0 le_rfl (by norm_num) (by norm_num) (by norm_num)
      (by norm_num)
  have r60 : rustRem 60 360 = 60 :=
    rustRem_eq_of_decomp 60 360 60 0 le_rfl (by norm_num) (by norm_num) (by norm_num)
      (by norm_num)
  have m00 : rustRem 0 2 = 0 :=
    rustRem_eq_of_decomp 0 2 0 0 le_rfl (by norm_num) (by norm_num) le_rfl (by norm_num)
  have m22 : rustRem 2 2 = 0 :=
    rustRem_eq_of_decomp 2 2 0 1 (by norm_num) (by norm_num) (by norm_num) le_rfl (by norm_num)
  have m42 : rustRem 4 2 = 0 :=
    rustRem_eq_of_decomp 4 2 0 2 (by norm_num) (by norm_num) (by norm_num) le_rfl (by norm_num)
  have m12 : rustRem 1 2 = 1 :=
    rustRem_eq_of_decomp 1 2 1 0 le_rfl (by norm_num) (by norm_num) (by norm_num) (by norm_num)
  refine ⟨?_, ?_, ?_, ?_, ?_⟩
  · simp only [hsv_to_rgb, r0]
    norm_num [m00, clampU8_255, clampU8_0]
  · simp only [hsv_to_rgb, r120]
    norm_num [show (120 : ℚ) / 60 = 2 by norm_num, m22, clampU8_255, clampU8_0]
  · simp only [hsv_to_rgb, r240]
    norm_num [show (240 : ℚ) / 60 = 4 by norm_num, m42, clampU8_255, clampU8_0]
  · simp only [hsv_to_rgb, r60]
    norm_num [show (60 : ℚ) / 60 = 1 by norm_num, m12, clampU8_255, clampU8_0]
  · intro h
    simp only [hsv_to_rgb]
    norm_num [ite_self, clampU8_255]

lemma cSub_some {a b : ℕ} (h : b ≤ a) : cSub a b = some (a - b) := if_pos h

lemma mem_rng {a b m : ℕ} : m ∈ rng a b ↔ a ≤ m ∧ m < b := by
  rw [rng, List.mem_range'_1]
  omega

lemma writePx_some {buf : List ℕ} {i : ℕ} (c : ℕ) (h : i < buf.length) :
    writePx buf i c = some (buf.set i c) := if_pos h

lemma writePx_length {buf buf2 : List ℕ} {i c : ℕ} (h : writePx buf i c = some buf2) :
    buf2.length = buf.length := by
  unfold writePx at h
  split at h
  · cases h
    exact List.length_set ..
  · cases h

lemma writePx_frame {buf buf2 : List ℕ} {i c j : ℕ} (h : writePx buf i c = some buf2)
    (hne : i ≠ j) : buf2[j]? = buf[j]? := by
  unfold writePx at h
  split at h
  · cases h
    exact List.getElem?_set_ne hne
  · cases h

lemma idx_lt_of {w h y x : ℕ} (hy : y < h) (hx : x < w) : y * w + x < w * h :=
  calc y * w + x < y * w + w := Nat.add_lt_add_left hx _
    _ = (y + 1) * w := by ring
    _ ≤ h * w := Nat.mul_le_mul_right w hy
    _ = w * h := Nat.mul_comm h w

lemma idx_div {w y x : ℕ} (hx : x < w) : (y * w + x) / w = y := by
  have h0 : 0 < w := by omega
  rw [show y * w + x = x + w * y by ring, Nat.add_mul_div_left x y h0,
    Nat.div_eq_of_lt hx, Nat.zero_add]

lemma idx_mod (w y x : ℕ) : (y * w + x) % w = x % w := by
  rw [show y * w + x = x + y * w by ring, Nat.add_mul_mod_self_right]

lemma rightPos_eq {w b y : ℕ} (hby : b ≤ y) : rightPos w b y = some (w + (y - b)) := by
  simp [rightPos, cSub, hby]

lemma bottomPos_eq {w h b x : ℕ} (hw : 1 ≤ w) (hx : x ≤ w - 1) (h2b : 2 * b ≤ h) :
    bottomPos w h b x = some (w + (h - 2 * b) + (w - 1 - x)) := by
  simp [bottomPos, cSub, hw, hx, h2b]

lemma leftPos_eq {w h b y : ℕ} (h2b : 2 * b ≤ h) (hb1 : 1 ≤ h - 2 * b) (hyb : b ≤ y)
    (hy2 : y - b ≤ h - 2 * b - 1) (hbase : 2 * b ≤ 2 * w + h) :
    leftPos w h b y = some (2 * w + h - 2 * b + (h - 2 * b - 1 - (y - b))) := by
  unfold leftPos
  simp only [cSub_some h2b, cSub_some hb1, cSub_some hyb, cSub_some hy2, cSub_some hbase,
    Option.bind_eq_bind, Option.some_bind]

lemma foldlM_some_of_inv {α β : Type} (f : β → α → Option β) (l : List α) (P : β → Prop)
    (hf : ∀ b a, P b → a ∈ l → ∃ b2, f b a = some b2 ∧ P b2) :
    ∀ b, P b → ∃ b2, l.foldlM f b = some b2 ∧ P b2 := by
  induction l with
  | nil => exact fun b hb => ⟨b, rfl, hb⟩
  | cons a l ih =>
    intro b hb
    obtain ⟨b1, hstep, hb1⟩ := hf b a hb (List.mem_cons_self a l)
    obtain ⟨b2, hfold, hb2⟩ :=
      ih (fun b a hb ha => hf b a hb (List.mem_cons_of_mem _ ha)) b1 hb1
    refine ⟨b2, ?_, hb2⟩
    rw [List.foldlM_cons, hstep]
    simp only [Option.bind_eq_bind, Option.some_bind]
    exact hfold

lemma foldlM_frame {α : Type} (f : List ℕ → α → Option (List ℕ)) (l : List α) (P : ℕ → Prop)
    (hf : ∀ buf a buf2 i, a ∈ l → f buf a = some buf2 → ¬ P i → buf2[i]? = buf[i]?) :
    ∀ buf buf2 i, l.foldlM f buf = some buf2 → ¬ P i → buf2[i]? = buf[i]? := by
  induction l with
  | nil =>
    intro buf buf2 i hfold hP
    simp only [List.foldlM_nil, Option.pure_def, Option.some.injEq] at hfold
    rw [hfold]
  | cons a l ih =>
    intro buf buf2 i hfold hP
    rw [List.foldlM_cons] at hfold
    cases hstep : f buf a with
    | none => rw [hstep] at hfold; simp at hfold
    | some b1 =>
      rw [hstep] at hfold
      simp only [Option.bind_eq_bind, Option.some_bind] at hfold
      calc buf2[i]? = b1[i]? :=
            ih (fun buf a buf2 i ha => hf buf a buf2 i (List.mem_cons_of_mem _ ha))
              b1 buf2 i hfold hP
        _ = buf[i]? := hf buf a b1 i (List.mem_cons_self a l) hstep hP

lemma drawTopBand_some (w h b : ℕ) (t : ℚ) (buf : List ℕ)
    (hlen : buf.length = w * h) (hbh : b ≤ h) :
    ∃ buf2, drawTopBand w h b t buf = some buf2 ∧ buf2.length = w * h := by
  unfold drawTopBand
  refine foldlM_some_of_inv _ _ (fun l => l.length = w * h) ?_ buf hlen
  intro bf y hbf hy
  rw [mem_rng] at hy
  refine foldlM_some_of_inv _ _ (fun l => l.length = w * h) ?_ bf hbf
  intro bf2 x hbf2 hx
  rw [mem_rng] at hx
  have hidx : y * w + x < bf2.length := by
    rw [hbf2]
    exact idx_lt_of (lt_of_lt_of_le hy.2 hbh) hx.2
  refine ⟨bf2.set (y * w + x) (colorAt w h b t x), ?_, by simp [hbf2]⟩
  simp only [topPos, Option.bind_eq_bind, Option.some_bind]
  exact writePx_some _ hidx

lemma drawRightBand_some (w h b : ℕ) (t : ℚ) (buf : List ℕ)
    (hlen : buf.length = w * h) :
    ∃ buf2, drawRightBand w h b t buf = some buf2 ∧ buf2.length = w * h := by
  unfold drawRightBand
  refine foldlM_some_of_inv _ _ (fun l => l.length = w * h) ?_ buf hlen
  intro bf x hbf hx
  rw [mem_rng] at hx
  refine foldlM_some_of_inv _ _ (fun l => l.length = w * h) ?_ bf hbf
  intro bf2 y hbf2 hy
  rw [mem_rng] at hy
  have hidx : y * w + x < bf2.length := by
    rw [hbf2]
    exact idx_lt_of (by omega) hx.2
  refine ⟨bf2.set (y * w + x) (colorAt w h b t (w + (y - b))), ?_, by simp [hbf2]⟩
  rw [rightPos_eq hy.1]
  simp only [Option.bind_eq_bind, Option.some_bind]
  exact writePx_some _ hidx

lemma drawBottomBand_some (w h b : ℕ) (t : ℚ) (buf : List ℕ)
    (hlen : buf.length = w * h) (h2b : 2 * b ≤ h) :
    ∃ buf2, drawBottomBand w h b t buf = some buf2 ∧ buf2.length = w * h := by
  unfold drawBottomBand
  refine foldlM_some_of_inv _ _ (fun l => l.length = w * h) ?_ buf hlen
  intro bf y hbf hy
  rw [mem_rng] at hy
  refine foldlM_some_of_inv _ _ (fun l => l.length = w * h) ?_ bf hbf
  intro bf2 x hbf2 hx
  rw [mem_rng] at hx
  have hidx : y * w + x < bf2.length := by
    rw [hbf2]
    exact idx_lt_of hy.2 hx.2
  refine ⟨bf2.set (y * w + x) (colorAt w h b t (w + (h - 2 * b) + (w - 1 - x))), ?_, by
    simp [hbf2]⟩
  rw [bottomPos_eq (by omega) (by omega) h2b]
  simp only [Option.bind_eq_bind, Option.some_bind]
  exact writePx_some _ hidx

lemma drawLeftBand_some (w h b : ℕ) (t : ℚ) (buf : List ℕ)
    (hlen : buf.length = w * h) (hw : 1 ≤ w) :
    ∃ buf2, drawLeftBand w h b t buf = some buf2 ∧ buf2.length = w * h := by
  unfold drawLeftBand
  refine foldlM_some_of_inv _ _ (fun l => l.length = w * h) ?_ buf hlen
  intro bf x hbf hx
  rw [mem_rng] at hx
  refine foldlM_some_of_inv _ _ (fun l => l.length = w * h) ?_ bf hbf
  intro bf2 y hbf2 hy
  rw [mem_rng] at hy
  have hyb : b ≤ y := hy.1
  have hsz : 2 * b + 1 ≤ h := by omega
  have hidx : y * w + x < bf2.length := by
    rw [hbf2]
    have h1 : y * w + x ≤ (h - b - 1) * w + (b - 1) :=
      Nat.add_le_add (Nat.mul_le_mul_right w (by omega)) (by omega)
    have h2 : b - 1 < w * (b + 1) :=
      Nat.lt_of_lt_of_le (show b - 1 < 1 * (b + 1) by omega)
        (Nat.mul_le_mul_right (b + 1) hw)
    have h3 : (h - b - 1) * w + (b - 1) < w * h := by
      calc (h - b - 1) * w + (b - 1) = w * (h - b - 1) + (b - 1) := by ring
        _ < w * (h - b - 1) + w * (b + 1) := Nat.add_lt_add_left h2 _
        _ = w * ((h - b - 1) + (b + 1)) := by ring
        _ = w * h := by congr 1; omega
    omega
  refine ⟨bf2.set (y * w + x)
      (colorAt w h b t (2 * w + h - 2 * b + (h - 2 * b - 1 - (y - b)))), ?_, by simp [hbf2]⟩
  rw [leftPos_eq (by omega) (by omega) hyb (by omega) (by omega)]
  simp only [Option.bind_eq_bind, Option.some_bind]
  exact writePx_some _ hidx

/-- C3 (amended): provided the surface satisfies `2*b ≤ h` (with
`w ≥ 1`, `h ≥ 1` and a matching buffer), the per-frame redraw never
panics: every buffer index written is in range and no subtraction
underflows, so the frame is drawn or skipped but never aborted. -/
theorem redraw_no_abort (w h b : ℕ) (t : ℚ) (buf : List ℕ)
    (hlen : buf.length = w * h) (hw : 1 ≤ w) (_hh : 1 ≤ h) (h2b : 2 * b ≤ h) :
    drawFrame w h b t buf ≠ FrameResult.aborted := by
  unfold drawFrame
  rw [if_neg (by simp [hlen])]
  have hper : perimeterZ w h b ≠ 0 := by
    unfold perimeterZ
    omega
  rw [if_neg hper]
  obtain ⟨b1, h1, l1⟩ := drawTopBand_some w h b t buf hlen (by omega)
  obtain ⟨b2, h2, l2⟩ := drawRightBand_some w h b t b1 l1
  obtain ⟨b3, h3, l3⟩ := drawBottomBand_some w h b t b2 l2 h2b
  obtain ⟨b4, h4, l4⟩ := drawLeftBand_some w h b t b3 l3 hw
  rw [h1, Option.some_bind, h2, Option.some_bind, h3, Option.some_bind, h4]
  simp

/-- C3 witness: a concrete well-formed frame (w=3, h=3, b=1) is not aborted. -/
theorem redraw_no_abort_witness :
    (List.replicate 9 0).length = 3 * 3 ∧ 1 ≤ 3 ∧ 2 * 1 ≤ 3 ∧
    drawFrame 3 3 1 0 (List.replicate 9 0) ≠ FrameResult.aborted :=
  ⟨by decide, by decide, by decide,
    redraw_no_abort 3 3 1 0 (List.replicate 9 0) (by decide) (by decide) (by decide) (by decide)⟩

/-- C3 counterexample: the claim admits any border thickness, but at
`w = 3, h = 3, b = 2` (width ≥ 1, height ≥ 1) the bottom-band computation
`height - 2*border_width` underflows, so the redraw panics instead of
completing or skipping. -/
theorem redraw_aborts_on_thick_border :
    drawFrame 3 3 2 0 (List.replicate 9 0) = FrameResult.aborted ∧
    cSub 3 (2 * 2) = none := by
  constructor
  · decide
  · decide

/-- C2 (amended): given a buffer of matching length, the redraw skips the
frame exactly when `perimeter = 2*(w + h - 2b)` equals zero; a negative
perimeter is not skipped (the code compares with `== 0.0`, not `<= 0.0`). -/
theorem frame_skipped_iff_perimeter_zero (w h b : ℕ) (t : ℚ) (buf : List ℕ)
    (hlen : buf.length = w * h) :
    drawFrame w h b t buf = FrameResult.skipped ↔ perimeterZ w h b = 0 := by
  unfold drawFrame
  rw [if_neg (by simp [hlen])]
  constructor
  · intro hs
    by_contra hp
    rw [if_neg hp] at hs
    cases hch : (drawTopBand w h b t buf).bind (fun bf => (drawRightBand w h b t bf).bind
        (fun bf => (drawBottomBand w h b t bf).bind (drawLeftBand w h b t))) with
    | none => rw [hch] at hs; exact FrameResult.noConfusion hs
    | some bf => rw [hch] at hs; exact FrameResult.noConfusion hs
  · intro hp
    rw [if_pos hp]

/-- C2 witness: a degenerate surface (w=2, h=2, b=2) has perimeter zero and
the frame is skipped. -/
theorem frame_skipped_iff_perimeter_zero_witness :
    (List.replicate 4 0).length = 2 * 2 ∧
    drawFrame 2 2 2 0 (List.replicate 4 0) = FrameResult.skipped :=
  ⟨by decide,
    (frame_skipped_iff_perimeter_zero 2 2 2 0 (List.replicate 4 0) (by decide)).mpr (by decide)⟩

/-- C2 counterexample: at `w = 1, h = 1, b = 4` the computed perimeter is
negative (`perimeter ≤ 0`), yet the frame is not skipped — the code only
compares the perimeter with `0.0`, and the draw then panics on an
out-of-bounds write. -/
theorem negative_perimeter_not_skipped :
    perimeterZ 1 1 4 < 0 ∧
    drawFrame 1 1 4 0 [0] ≠ FrameResult.skipped ∧
    drawFrame 1 1 4 0 [0] = FrameResult.aborted := by
  refine ⟨by decide, by decide, by decide⟩

lemma drawTopBand_frame {w h b : ℕ} {t : ℚ} {buf buf2 : List ℕ}
    (hd : drawTopBand w h b t buf = some buf2) {i : ℕ} (hi : ¬ i / w < b) :
    buf2[i]? = buf[i]? := by
  unfold drawTopBand at hd
  refine foldlM_frame _ _ (fun j => j / w < b) ?_ buf buf2 i hd hi
  intro bf y bfo j hy hstep hj
  rw [mem_rng] at hy
  refine foldlM_frame _ _ (fun j => j / w < b) ?_ bf bfo j hstep hj
  intro bf2 x bfo2 j2 hx hstep2 hj2
  rw [mem_rng] at hx
  simp only [topPos, Option.bind_eq_bind, Option.some_bind] at hstep2
  refine writePx_frame hstep2 (fun heq => hj2 ?_)
  show j2 / w < b
  rw [← heq, idx_div hx.2]
  exact hy.2

lemma drawRightBand_frame {w h b : ℕ} {t : ℚ} {buf buf2 : List ℕ}
    (hd : drawRightBand w h b t buf = some buf2) {i : ℕ} (hi : ¬ w - b ≤ i % w) :
    buf2[i]? = buf[i]? := by
  unfold drawRightBand at hd
  refine foldlM_frame _ _ (fun j => w - b ≤ j % w) ?_ buf buf2 i hd hi
  intro bf x bfo j hx hstep hj
  rw [mem_rng] at hx
  refine foldlM_frame _ _ (fun j => w - b ≤ j % w) ?_ bf bfo j hstep hj
  intro bf2 y bfo2 j2 hy hstep2 hj2
  rw [mem_rng] at hy
  cases hrp : rightPos w b y with
  | none => rw [hrp] at hstep2; simp at hstep2
  | some p =>
    rw [hrp] at hstep2
    simp only [Option.bind_eq_bind, Option.some_bind] at hstep2
    refine writePx_frame hstep2 (fun heq => hj2 ?_)
    show w - b ≤ j2 % w
    rw [← heq, idx_mod, Nat.mod_eq_of_lt hx.2]
    exact hx.1

lemma drawBottomBand_frame {w h b : ℕ} {t : ℚ} {buf buf2 : List ℕ}
    (hd : drawBottomBand w h b t buf = some buf2) {i : ℕ} (hi : ¬ h - b ≤ i / w) :
    buf2[i]? = buf[i]? := by
  unfold drawBottomBand at hd
  refine foldlM_frame _ _ (fun j => h - b ≤ j / w) ?_ buf buf2 i hd hi
  intro bf y bfo j hy hstep hj
  rw [mem_rng] at hy
  refine foldlM_frame _ _ (fun j => h - b ≤ j / w) ?_ bf bfo j hstep hj
  intro bf2 x bfo2 j2 hx hstep2 hj2
  rw [mem_rng] at hx
  cases hbp : bottomPos w h b x with
  | none => rw [hbp] at hstep2; simp at hstep2
  | some p =>
    rw [hbp] at hstep2
    simp only [Option.bind_eq_bind, Option.some_bind] at hstep2
    refine writePx_frame hstep2 (fun heq => hj2 ?_)
    show h - b ≤ j2 / w
    rw [← heq, idx_div hx.2]
    exact hy.1

lemma drawLeftBand_frame {w h b : ℕ} {t : ℚ} {buf buf2 : List ℕ}
    (hd : drawLeftBand w h b t buf = some buf2) {i : ℕ} (hi : ¬ i % w < b) :
    buf2[i]? = buf[i]? := by
  unfold drawLeftBand at hd
  refine foldlM_frame _ _ (fun j => j % w < b) ?_ buf buf2 i hd hi
  intro bf x bfo j hx hstep hj
  rw [mem_rng] at hx
  refine foldlM_frame _ _ (fun j => j % w < b) ?_ bf bfo j hstep hj
  intro bf2 y bfo2 j2 hy hstep2 hj2
  rw [mem_rng] at hy
  cases hlp : leftPos w h b y with
  | none => rw [hlp] at hstep2; simp at hstep2
  | some p =>
    rw [hlp] at hstep2
    simp only [Option.bind_eq_bind, Option.some_bind] at hstep2
    refine writePx_frame hstep2 (fun heq => hj2 ?_)
    show j2 % w < b
    rw [← heq, idx_mod]
    exact lt_of_le_of_lt (Nat.mod_le x w) hx.2

/-- C8: every pixel strictly inside the four border bands
(`b ≤ x < w - b` and `b ≤ y < h - b`) is left unchanged by the per-frame
draw, whatever the frame outcome, so the interior stays fully
transparent. -/
theorem interior_pixels_untouched (w h b x y : ℕ) (t : ℚ) (buf : List ℕ)
    (hx1 : b ≤ x) (hx2 : x < w - b) (hy1 : b ≤ y) (hy2 : y < h - b) :
    (resultBuffer buf (drawFrame w h b t buf))[y * w + x]? = buf[y * w + x]? := by
  have hxw : x < w := by omega
  have hdiv : (y * w + x) / w = y := idx_div hxw
  have hmod : (y * w + x) % w = x := by rw [idx_mod, Nat.mod_eq_of_lt hxw]
  unfold drawFrame
  split
  · simp [resultBuffer]
  · split
    · simp [resultBuffer]
    · cases hch : (drawTopBand w h b t buf).bind (fun bf => (drawRightBand w h b t bf).bind
          (fun bf => (drawBottomBand w h b t bf).bind (drawLeftBand w h b t))) with
      | none => rfl
      | some bf =>
        show bf[y * w + x]? = buf[y * w + x]?
        obtain ⟨b1, h1, hch1⟩ := Option.bind_eq_some.1 hch
        obtain ⟨b2, h2, hch2⟩ := Option.bind_eq_some.1 hch1
        obtain ⟨b3, h3, h4⟩ := Option.bind_eq_some.1 hch2
        calc bf[y * w + x]?
            = b3[y * w + x]? := drawLeftBand_frame h4 (by rw [hmod]; omega)
          _ = b2[y * w + x]? := drawBottomBand_frame h3 (by rw [hdiv]; omega)
          _ = b1[y * w + x]? := drawRightBand_frame h2 (by rw [hmod]; omega)
          _ = buf[y * w + x]? := drawTopBand_frame h1 (by rw [hdiv]; omega)

/-- C8 witness: the interior pixel (2,2) of a 6×6 surface with border 1 keeps
its original value through a frame. -/
theorem interior_pixels_untouched_witness :
    (1 : ℕ) ≤ 2 ∧ (2 : ℕ) < 6 - 1 ∧
    (resultBuffer (List.replicate 36 7)
        (drawFrame 6 6 1 0 (List.replicate 36 7)))[2 * 6 + 2]? =
      (List.replicate 36 7)[2 * 6 + 2]? :=
  ⟨by decide, by decide,
    interior_pixels_untouched 6 6 1 2 2 0 (List.replicate 36 7)
      (by decide) (by decide) (by decide) (by decide)⟩

lemma pos_in_unit_interval {w h b p : ℕ} (hw : 1 ≤ w) (h2b : 2 * b ≤ h)
    (hp : p < 2 * (w + h - 2 * b)) :
    0 ≤ (p : ℚ) / ((perimeterZ w h b : ℤ) : ℚ) ∧
    (p : ℚ) / ((perimeterZ w h b : ℤ) : ℚ) < 1 := by
  have hper : (0 : ℤ) < perimeterZ w h b := by
    unfold perimeterZ
    omega
  have hperQ : (0 : ℚ) < ((perimeterZ w h b : ℤ) : ℚ) := by exact_mod_cast hper
  refine ⟨div_nonneg (Nat.cast_nonneg p) hperQ.le, ?_⟩
  rw [div_lt_one hperQ]
  have hpz : (p : ℤ) < perimeterZ w h b := by
    unfold perimeterZ
    omega
  exact_mod_cast hpz

/-- C1 counterexample: on an 800×600 surface with border thickness 4, the
left-band pixel at `y = 4` is assigned position 2783 by the code, while the
claimed formula `2w + (h-2b) + (h-1-b-(y-b))` gives 2787, which moreover is
not below the perimeter 2784, so dividing it does not land in `[0,1)`. -/
theorem left_band_formula_mismatch :
    leftPos 800 600 4 4 = some 2783 ∧
    specLeftContribution 800 600 4 4 = 2787 ∧
    (2783 : ℕ) ≠ 2787 ∧
    ¬ 2787 < perimeterN 800 600 4 := by
  refine ⟨by decide, by decide, by decide, by decide⟩

/-- C1 (amended): for every border pixel drawn in a frame (with `w ≥ 1` and
`2b ≤ h`), the un-normalized PerimeterPosition is `x` in the top band,
`w + (y - b)` in the right band, `w + (h - 2b) + (w - 1 - x)` in the bottom
band, and `2w + (h - 2b) + ((h - 2b - 1) - (y - b))` in the left band (not
`2w + (h - 2b) + (h - 1 - b - (y - b))` as stated); dividing by
`perimeter = 2*(w + h - 2b)` yields a value in `[0, 1)`. -/
theorem borderPosition_formulas (w h b x y : ℕ) (hw : 1 ≤ w) (h2b : 2 * b ≤ h) :
    (y < b → x < w →
      topPos x = some x ∧
      0 ≤ (x : ℚ) / ((perimeterZ w h b : ℤ) : ℚ) ∧
      (x : ℚ) / ((perimeterZ w h b : ℤ) : ℚ) < 1) ∧
    (b ≤ y → y < h - b → w - b ≤ x → x < w →
      rightPos w b y = some (w + (y - b)) ∧
      0 ≤ ((w + (y - b) : ℕ) : ℚ) / ((perimeterZ w h b : ℤ) : ℚ) ∧
      ((w + (y - b) : ℕ) : ℚ) / ((perimeterZ w h b : ℤ) : ℚ) < 1) ∧
    (h - b ≤ y → y < h → x < w →
      bottomPos w h b x = some (w + (h - 2 * b) + (w - 1 - x)) ∧
      0 ≤ ((w + (h - 2 * b) + (w - 1 - x) : ℕ) : ℚ) / ((perimeterZ w h b : ℤ) : ℚ) ∧
      ((w + (h - 2 * b) + (w - 1 - x) : ℕ) : ℚ) / ((perimeterZ w h b : ℤ) : ℚ) < 1) ∧
    (x < b → b ≤ y → y < h - b →
      leftPos w h b y = some (2 * w + h - 2 * b + (h - 2 * b - 1 - (y - b))) ∧
      0 ≤ ((2 * w + h - 2 * b + (h - 2 * b - 1 - (y - b)) : ℕ) : ℚ) /
          ((perimeterZ w h b : ℤ) : ℚ) ∧
      ((2 * w + h - 2 * b + (h - 2 * b - 1 - (y - b)) : ℕ) : ℚ) /
          ((perimeterZ w h b : ℤ) : ℚ) < 1) := by
  refine ⟨?_, ?_, ?_, ?_⟩
  · intro _hy hxw
    obtain ⟨g0, g1⟩ := pos_in_unit_interval hw h2b (show x < 2 * (w + h - 2 * b) by omega)
    exact ⟨rfl, g0, g1⟩
  · intro hy1 hy2 _hx1 _hx2
    obtain ⟨g0, g1⟩ := pos_in_unit_interval hw h2b
      (show w + (y - b) < 2 * (w + h - 2 * b) by omega)
    exact ⟨rightPos_eq hy1, g0, g1⟩
  · intro _hy1 _hy2 hxw
    obtain ⟨g0, g1⟩ := pos_in_unit_interval hw h2b
      (show w + (h - 2 * b) + (w - 1 - x) < 2 * (w + h - 2 * b) by omega)
    exact ⟨bottomPos_eq hw (by omega) h2b, g0, g1⟩
  · intro _hx hy1 hy2
    obtain ⟨g0, g1⟩ := pos_in_unit_interval hw h2b
      (show 2 * w + h - 2 * b + (h - 2 * b - 1 - (y - b)) < 2 * (w + h - 2 * b) by omega)
    exact ⟨leftPos_eq h2b (by omega) hy1 (by omega) (by omega), g0, g1⟩

/-- C1 witness: the top-band pixel `(5, 2)` of an 800×600 surface with
border 4 has position 5, normalized into `[0, 1)`. -/
theorem borderPosition_formulas_witness :
    topPos 5 = some 5 ∧
    0 ≤ ((5 : ℕ) : ℚ) / ((perimeterZ 800 600 4 : ℤ) : ℚ) ∧
    ((5 : ℕ) : ℚ) / ((perimeterZ 800 600 4 : ℤ) : ℚ) < 1 :=
  (borderPosition_formulas 800 600 4 5 2 (by decide) (by decide)).1 (by decide) (by decide)

/-- C6: walking the border clockwise from the top-left corner, the renderer's
PerimeterPosition at step `k` is exactly `k`, hence monotonically
non-decreasing over a lap and wrapping only when the next lap restarts; for
an 800×600 surface with border 4 the perimeter is 2784, pixel `(0,0)` has
position 0, and pixel `(796,0)` has position 796. -/
theorem walk_positions (w h b : ℕ) (h2b : 2 * b ≤ h) :
    (∀ k, k < perimeterN w h b → walkContribution w h b k = some k) ∧
    (∀ k1 k2 p1 p2, k1 ≤ k2 → k2 < perimeterN w h b →
      walkContribution w h b k1 = some p1 → walkContribution w h b k2 = some p2 →
      p1 ≤ p2) ∧
    perimeterN 800 600 4 = 2784 ∧
    walkContribution 800 600 4 0 = some 0 ∧
    walkContribution 800 600 4 796 = some 796 := by
  have hmain : ∀ k, k < perimeterN w h b → walkContribution w h b k = some k := by
    intro k hk
    unfold perimeterN at hk
    unfold walkContribution
    split_ifs with h1 h2 h3
    · simp [topPos]
    · rw [rightPos_eq (Nat.le_add_right b (k - w))]
      congr 1
      omega
    · rw [bottomPos_eq (by omega) (Nat.sub_le ..) h2b]
      congr 1
      omega
    · rw [leftPos_eq h2b (by omega) (by omega) (by omega) (by omega)]
      congr 1
      omega
  refine ⟨hmain, ?_, by decide, by decide, by decide⟩
  intro k1 k2 p1 p2 hle hk2 hp1 hp2
  rw [hmain k1 (lt_of_le_of_lt hle hk2)] at hp1
  rw [hmain k2 hk2] at hp2
  cases hp1
  cases hp2
  exact hle

/-- C6 witness: instantiating the walk theorem on the 800×600, border-4
surface at step 796. -/
theorem walk_positions_witness :
    walkContribution 800 600 4 796 = some 796 ∧ perimeterN 800 600 4 = 2784 :=
  ⟨(walk_positions 800 600 4 (by decide)).1 796 (by decide),
    (walk_positions 800 600 4 (by decide)).2.2.1⟩

/-- C4: for every key sequence, `send_keys` emits exactly `2n` entries — the
key-down events in input order, then the key-up events in reverse order — and
in particular on `[A, B]` (virtual keys 65, 66) it emits
down(A), down(B), up(B), up(A). -/
theorem send_keys_order :
    (∀ ks : List ℕ,
      (send_keys ks).length = 2 * ks.length ∧
      (∀ i, i < ks.length → (send_keys ks)[i]? = ks[i]?.map (fun k => (k, false))) ∧
      (∀ i, i < ks.length →
        (send_keys ks)[ks.length + i]? = ks[ks.length - 1 - i]?.map (fun k => (k, true)))) ∧
    send_keys [65, 66] = [(65, false), (66, false), (66, true), (65, true)] := by
  refine ⟨?_, by decide⟩
  intro ks
  refine ⟨?_, ?_, ?_⟩
  · simp only [send_keys, List.length_append, List.length_map, List.length_reverse]
    omega
  · intro i hi
    rw [send_keys, List.getElem?_append_left (by simpa using hi), List.getElem?_map]
  · intro i hi
    rw [send_keys, List.getElem?_append_right (by simp), List.getElem?_map]
    have hidx : ks.length + i - (ks.map (fun i => (i, false))).length = i := by
      simp
    rw [hidx, List.getElem?_reverse (by simpa using hi)]

/-- C4 witness: the third emitted event for `[A, B]` is up(B). -/
theorem send_keys_order_witness :
    (send_keys [65, 66])[[65, 66].length + 0]? =
      [65, 66][[65, 66].length - 1 - 0]?.map (fun k => (k, true)) :=
  (send_keys_order.1 [65, 66]).2.2 0 (by decide)

/-- C7: starting from a state where the overlay matches the flag, two toggle
invocations before the UI thread services the wake flip the flag back to its
original value, servicing the coalesced wake then leaves flag and overlay
exactly as they started, and at most one window exists at every step of the
scenario. -/
theorem double_toggle_net_zero (s : VisState)
    (hcons : s.windows = if s.flag then 1 else 0) :
    (toggleHotkey (toggleHotkey s)).flag = s.flag ∧
    user_event (toggleHotkey (toggleHotkey s)) = s ∧
    (toggleHotkey s).windows ≤ 1 ∧
    (toggleHotkey (toggleHotkey s)).windows ≤ 1 ∧
    (user_event (toggleHotkey (toggleHotkey s))).windows ≤ 1 := by
  obtain ⟨f, n⟩ := s
  cases f
  · simp only [if_neg Bool.false_ne_true] at hcons
    subst hcons
    decide
  · simp only [if_pos rfl] at hcons
    subst hcons
    decide

/-- C7 witness: the double toggle is the identity on the shown state. -/
theorem double_toggle_net_zero_witness :
    (toggleHotkey (toggleHotkey ⟨true, 1⟩)).flag = (⟨true, 1⟩ : VisState).flag ∧
    user_event (toggleHotkey (toggleHotkey ⟨true, 1⟩)) = (⟨true, 1⟩ : VisState) ∧
    (toggleHotkey (⟨true, 1⟩ : VisState)).windows ≤ 1 ∧
    (toggleHotkey (toggleHotkey ⟨true, 1⟩)).windows ≤ 1 ∧
    (user_event (toggleHotkey (toggleHotkey ⟨true, 1⟩))).windows ≤ 1 :=
  double_toggle_net_zero ⟨true, 1⟩ (by decide)

/-- C9: a `CloseRequested` event on the live overlay window exits the event
loop — terminating the process on normal shutdown — and does not merely hide
the overlay: the visibility state is untouched, while a repaint event does
not exit. -/
theorem close_requested_exits (s : VisState) :
    window_event s true WinEvent.closeRequested = (s, true) ∧
    (window_event s true WinEvent.closeRequested).1.windows = s.windows ∧
    (window_event s true WinEvent.redrawRequested).2 = false :=
  ⟨rfl, rfl, rfl⟩

/-- C10: at process startup the visibility flag is initialized to `true` with
no window yet, and the first visibility evaluation on the UI thread
(`resumed`) creates the overlay window: the initial state is Shown, not
Hidden. -/
theorem startup_shows_overlay :
    initialState.flag = true ∧ initialState.windows = 0 ∧
    (resumedHandler initialState).windows = 1 := by
  decide

end VimBrowse
